import Mathlib

/-!
Verification development for the susu/ROSCA digital-ledger repository
(`groups` and `contributions` Django apps).

Monetary amounts are Django `DecimalField`s with two decimal places; we embed
them as integers denominated in cents (`10.00` becomes `1000`).  Dates are
embedded as integers (any totally ordered stand-in for `DateField` values).
Database rows are embedded as lists kept in creation order; the auto primary
key `id`/`pk` is an explicit field, assigned from a counter in the state.

A `Page` row in the database is identified by its owning book and its
`page_number` (`unique_together = ('digital_book', 'page_number')`), so here
an entry carries `book` and `page_number` in place of its page foreign key.
-/

set_option maxRecDepth 100000

namespace SusuLedger

/-- One ledger `Entry` row.  Fields follow `contributions/models.py` /
`groups/models.py` (`member`, `page`, `row_number`, `date`, `deposit_amount`,
`withdrawal_amount`, `current_balance`); `id` is the auto primary key and the
page foreign key is represented by the pair (`book`, `page_number`). -/
structure Entry where
  id : Nat
  member : Nat
  book : Nat
  page_number : Nat
  row_number : Nat
  date : Int
  deposit_amount : Int
  withdrawal_amount : Int
  current_balance : Int
deriving DecidableEq, Repr

/-- `Entry.objects.filter(member=m, page=(b,p)).order_by('-row_number').first()`:
the entry of member `m` on page (`b`,`p`) with the greatest `row_number`.
Used by `groups.models.Entry.save`. -/
def pickMaxRow (acc : Option Entry) (e : Entry) : Option Entry :=
  match acc with
  | none => some e
  | some a => if a.row_number < e.row_number then some e else some a

def prevOnPage (es : List Entry) (m b p : Nat) : Option Entry :=
  (es.filter (fun e => e.member == m && e.book == b && e.page_number == p)).foldl
    pickMaxRow none

/-- The balance `groups.models.Entry.save` stores on creation
(src/groups/models.py lines 438-455): previous balance is taken from the last
entry of the same member on the SAME PAGE (0 if none); a positive deposit adds,
otherwise a positive withdrawal subtracts, otherwise the caller-supplied
`current_balance` is kept. -/
def groupsSaveBalance (es : List Entry) (e : Entry) : Int :=
  let prev_bal : Int := ((prevOnPage es e.member e.book e.page_number).map
    Entry.current_balance).getD 0
  if e.deposit_amount > 0 then prev_bal + e.deposit_amount
  else if e.withdrawal_amount > 0 then prev_bal - e.withdrawal_amount
  else e.current_balance

/-- Creating a new entry through `groups.models.Entry.save`. -/
def groupsSave (es : List Entry) (e : Entry) : Entry :=
  { e with current_balance := groupsSaveBalance es e }

/-- Lexicographic key comparison realising Django's
`order_by('-date', '-row_number', '-id')`: `a` is strictly before `b` in that
descending order iff `keyLt a b`. -/
def keyLt (a b : Entry) : Bool :=
  a.date < b.date ||
    (a.date == b.date &&
      (a.row_number < b.row_number ||
        (a.row_number == b.row_number && a.id < b.id)))

/-- `Entry.objects.filter(member=m).order_by('-date','-row_number','-id').first()`:
the entry of member `m` that is maximal by (`date`, `row_number`, `id`).
Used by `contributions.models.Entry.save`. -/
def pickMaxKey (acc : Option Entry) (e : Entry) : Option Entry :=
  match acc with
  | none => some e
  | some a => if keyLt a e then some e else some a

def lastByDateRowId (es : List Entry) (m : Nat) : Option Entry :=
  (es.filter (fun e => e.member == m)).foldl pickMaxKey none

/-- The starting balance `contributions.models.Entry.save` reads: the stored
balance of the member's entry maximal by (`date`, `row_number`, `id`), or 0. -/
def contribPrevBalance (es : List Entry) (m : Nat) : Int :=
  ((lastByDateRowId es m).map Entry.current_balance).getD 0

/-- The balance `contributions.models.Entry.save` stores on creation
(src/contributions/models.py lines 121-135): starting balance plus
`deposit_amount` minus `withdrawal_amount`, always recomputed — any
caller-supplied `current_balance` is discarded. -/
def contribSaveBalance (es : List Entry) (e : Entry) : Int :=
  contribPrevBalance es e.member + e.deposit_amount - e.withdrawal_amount

/-- Creating a new entry through `contributions.models.Entry.save` (the model
the record view actually imports). -/
def contribSave (es : List Entry) (e : Entry) : Entry :=
  { e with current_balance := contribSaveBalance es e }

/-- The persistent state the record view touches: all `Entry` rows in creation
order, the next auto id, the existing `DigitalBook` rows as (member,
book_number) pairs, and the `Member.current_book` pointers as an association
list member ↦ book. -/
structure LedgerState where
  entries : List Entry
  nextId : Nat
  books : List (Nat × Nat)
  currentBook : List (Nat × Nat)
deriving DecidableEq, Repr

/-- `Entry.objects.filter(member=m).order_by('-id').first()`: the member's
entry with the greatest auto id.  The view reads its `current_balance`. -/
def pickMaxId (acc : Option Entry) (e : Entry) : Option Entry :=
  match acc with
  | none => some e
  | some a => if a.id < e.id then some e else some a

def lastById (es : List Entry) (m : Nat) : Option Entry :=
  (es.filter (fun e => e.member == m)).foldl pickMaxId none

/-- `current_bal = last_entry.current_balance if last_entry else 0` in
`RecordEntryView.form_valid` (src/groups/views.py lines 226-227). -/
def viewCurrentBalance (s : LedgerState) (m : Nat) : Int :=
  ((lastById s.entries m).map Entry.current_balance).getD 0

/-- `page.entries.values_list('row_number', flat=True)`: row numbers already
occupied on page (`b`,`p`). -/
def occupiedRows (es : List Entry) (b p : Nat) : List Nat :=
  (es.filter (fun e => e.book == b && e.page_number == p)).map Entry.row_number

/-- The row numbers `range(1, 32)` scanned by the view: 1..31. -/
def rows31 : List Nat := List.range' 1 31

/-- `next((i for i in range(1, 32) if i not in occupied_rows), None)`:
first free row number on a page, scanning rows in ascending order. -/
def nextFreeRow (occupied : List Nat) : Option Nat :=
  rows31.find? (fun i => !(occupied.contains i))

/-- Slot discovery for a page of a book in a given state (the expression the
view evaluates at src/groups/views.py lines 236-237). -/
def next_slot (s : LedgerState) (b p : Nat) : Option Nat :=
  nextFreeRow (occupiedRows s.entries b p)

/-- `Entry.objects.create(member=..., page=..., row_number=..., date=...,
deposit_amount=..., withdrawal_amount=..., current_balance=suppliedBal, ...)`.
`create` calls `contributions.models.Entry.save`, which recomputes
`current_balance`, so `suppliedBal` is discarded for new rows. -/
def newEntry (nid m b p r : Nat) (date dep wd suppliedBal : Int) : Entry :=
  { id := nid, member := m, book := b, page_number := p, row_number := r,
    date := date, deposit_amount := dep, withdrawal_amount := wd,
    current_balance := suppliedBal }

def createEntry (s : LedgerState) (m b p r : Nat) (date dep wd suppliedBal : Int) :
    LedgerState :=
  { s with
    entries := s.entries ++
      [contribSave s.entries (newEntry s.nextId m b p r date dep wd suppliedBal)]
    nextId := s.nextId + 1 }

/-- The fixed-rate deposit loop of `form_valid` (src/groups/views.py lines
259-271): scan candidate rows in order, skip rows in the stale `occupied_rows`
list, and create an entry with `deposit_amount = fixed_rate` until `need` rows
have been filled.  Returns the new state, the number of rows filled, and the
final `temp_balance` (the running value the view passes as `current_balance`,
which `save` then discards).  Arguments after the colon: state, temp balance,
remaining candidate rows, rows still needed. -/
def fillFixedRows (m b p : Nat) (date rate : Int) (occupied : List Nat) :
    LedgerState → Int → List Nat → Nat → LedgerState × Nat × Int
  | s, tb, _, 0 => (s, 0, tb)
  | s, tb, [], _ + 1 => (s, 0, tb)
  | s, tb, i :: rest, need + 1 =>
    if occupied.contains i then
      fillFixedRows m b p date rate occupied s tb rest (need + 1)
    else
      let tb2 := tb + rate
      let s2 := createEntry s m b p i date rate 0 tb2
      let out := fillFixedRows m b p date rate occupied s2 tb2 rest need
      (out.1, out.2.1 + 1, out.2.2)

/-- Row search for the remainder entry (src/groups/views.py line 277):
first `i` in 1..31 with `i not in occupied_rows` (the stale list) `and i not
in [entry.row_number for entry in page.entries.all()]` (the current rows). -/
def remainderRow (occupied pageRowsNow : List Nat) : Option Nat :=
  rows31.find? (fun i => !(occupied.contains i) && !(pageRowsNow.contains i))

/-- Outcome of one `form_valid` call, abstracting the Django messages:
`insufficientFunds` is "Insufficient balance!", `pageFull` is "This page is
full!", `invalidAmount` is "Please enter either a deposit or withdrawal
amount.", and `recorded n` reports `rows_filled = n` (the success / warning
messages). -/
inductive RecordResult where
  | insufficientFunds
  | pageFull
  | invalidAmount
  | recorded (rowsFilled : Nat)
deriving DecidableEq, Repr

/-- `RecordEntryView.form_valid` (src/groups/views.py lines 214-315) for
member `m` on page (`b`,`p`) — the page resolved from the request's `page`
query parameter inside the member's book — with the group's
`fixed_deposit_amount` `rate`, form amounts `dep`/`wd` and form date `date`.

For the amounts that reach the deposit branch (`dep > 0`, and `rate > 0` by
`Group.clean`) Python's `Decimal` floor division `//` and remainder `%` agree
with `Int.ediv`/`Int.emod` used here. -/
def record (s : LedgerState) (m b p : Nat) (rate dep wd date : Int) :
    LedgerState × RecordResult :=
  let currentBal := viewCurrentBalance s m
  if wd > 0 then
    if wd > currentBal then (s, .insufficientFunds)
    else
      match nextFreeRow (occupiedRows s.entries b p) with
      | some r => (createEntry s m b p r date 0 wd (currentBal - wd), .recorded 1)
      | none => (s, .pageFull)
  else if dep > 0 then
    let numRows := (Int.ediv dep rate).toNat
    let remainder := Int.emod dep rate
    let occupied := occupiedRows s.entries b p
    let fill := fillFixedRows m b p date rate occupied s currentBal rows31 numRows
    if remainder > 0 then
      match remainderRow occupied (occupiedRows fill.1.entries b p) with
      | some r =>
        (createEntry fill.1 m b p r date remainder 0 (fill.2.2 + remainder),
          .recorded (fill.2.1 + 1))
      | none => (fill.1, .recorded fill.2.1)
    else (fill.1, .recorded fill.2.1)
  else (s, .invalidAmount)

/-- A state with no entries, no books and no current-book pointers. -/
def emptyState : LedgerState :=
  { entries := [], nextId := 0, books := [], currentBook := [] }

/-- One record request: target member, book, page and the amounts. -/
structure Request where
  member : Nat
  book : Nat
  page : Nat
  rate : Int
  dep : Int
  wd : Int
  date : Int
deriving DecidableEq, Repr

/-- A sequence of record requests applied in order. -/
def applyRequests (s : LedgerState) : List Request → LedgerState
  | [] => s
  | q :: qs => applyRequests (record s q.member q.book q.page q.rate q.dep q.wd q.date).1 qs

/-- The entry of book `b` (owned by member `m`) maximal by
(`page_number`, `row_number`) — the "previous entry in the same book, ordered
by page_number then row_number" that the spec's balance rule refers to. -/
def prevInBook (es : List Entry) (m b : Nat) : Option Entry :=
  (es.filter (fun e => e.member == m && e.book == b)).foldl
    (fun acc e =>
      match acc with
      | none => some e
      | some a =>
        if a.page_number < e.page_number ||
            (a.page_number == e.page_number && a.row_number < e.row_number)
        then some e else some a)
    none

/-- The balance the spec's per-book rule prescribes for a new entry: balance of
the previous entry in the same book (ordered by page_number then row_number),
or 0 if the entry is the first in its book, plus deposit minus withdrawal.
Stated from the spec's words, for comparison with the code's save functions. -/
def specBookSaveBalance (es : List Entry) (e : Entry) : Int :=
  (((prevInBook es e.member e.book).map Entry.current_balance).getD 0)
    + e.deposit_amount - e.withdrawal_amount

/-- The balance claim C10 prescribes for a new entry saved through
`groups.models.Entry.save`: previous balance on the same page for the same
member (0 if none) plus deposit minus withdrawal.  Stated from the claim's
words, for comparison with `groupsSaveBalance`. -/
def specSaveBalance (es : List Entry) (e : Entry) : Int :=
  (((prevOnPage es e.member e.book e.page_number).map Entry.current_balance).getD 0)
    + e.deposit_amount - e.withdrawal_amount

/-- Two entries do not collide: they differ in page (book or page number) or in
row number. -/
def DistinctSlot (a e : Entry) : Prop :=
  ¬(a.book = e.book ∧ a.page_number = e.page_number ∧ a.row_number = e.row_number)

instance : ∀ a e, Decidable (DistinctSlot a e) := fun _ _ => by
  unfold DistinctSlot; infer_instance

/-- The store invariant of claim C7: every row number lies in 1..31 and no two
entries share a (page, row_number) slot. -/
def Inv (es : List Entry) : Prop :=
  (∀ e ∈ es, 1 ≤ e.row_number ∧ e.row_number ≤ 31) ∧ List.Pairwise DistinctSlot es

/-- Number of free rows on page (`b`,`p`): rows among 1..31 not occupied. -/
def freeCount (s : LedgerState) (b p : Nat) : Nat :=
  (rows31.filter (fun i => !((occupiedRows s.entries b p).contains i))).length

/-- Balance stored on the most recently created entry (0 if there is none). -/
def lastBalance (es : List Entry) : Int :=
  ((es.getLast?).map Entry.current_balance).getD 0

/-- Net amount of a transaction list: sum of deposits minus withdrawals. -/
def sumTxs : List (Int × Int) → Int
  | [] => 0
  | (dep, wd) :: txs => dep - wd + sumTxs txs

/-- The entry handed to `save` for one transaction of a replayed sequence:
member `m`, page (`b`,`p`), date `d0`, row `r`, id `nid`, amounts
`dep`/`wd` (the supplied balance 0 is discarded by `save`). -/
def txEntry (m b p : Nat) (d0 : Int) (r nid : Nat) (dep wd : Int) : Entry :=
  { id := nid, member := m, book := b, page_number := p, row_number := r,
    date := d0, deposit_amount := dep, withdrawal_amount := wd,
    current_balance := 0 }

/-- Saving a sequence of transactions through `contributions.models.Entry.save`
(as `Entry.objects.create` does), for one member on one page, with a common
date, at consecutive ascending row numbers starting at `r`, ids counted from
`nid`. -/
def replayEntries (m b p : Nat) (d0 : Int) :
    List Entry → Nat → Nat → List (Int × Int) → List Entry
  | es, _, _, [] => es
  | es, r, nid, (dep, wd) :: txs =>
    let e := contribSave es (txEntry m b p d0 r nid dep wd)
    replayEntries m b p d0 (es ++ [e]) (r + 1) (nid + 1) txs

/-- Computing the next slot twice with no write in between (two evaluations of
the view's row scan over the same stored state). -/
def nextSlotTwice (s : LedgerState) (b p : Nat) : Option Nat × Option Nat :=
  (next_slot s b p, next_slot s b p)

/-- State after a deposit of 10.00 into book 1 followed by a deposit of 5.00
into a fresh book 2 (fixed rate 10.00, member 0, all on page 1). -/
def c1State : LedgerState :=
  (record (record emptyState 0 1 1 1000 1000 0 0).1 0 2 1 1000 500 0 0).1

/-- The first entry written into book 2 in `c1State`, as handed to `save`
(supplied balance is irrelevant to the spec formula). -/
def c1Proto : Entry :=
  { id := 1, member := 0, book := 2, page_number := 1, row_number := 1, date := 0,
    deposit_amount := 500, withdrawal_amount := 0, current_balance := 0 }

/-- State after three record calls: deposit 10.00 dated 10, withdrawal 9.50
dated 20, then a back-dated deposit 9.00 dated 1.  The last entry by id holds
balance 9.50 while the last entry by (date, row, id) holds balance 0.50. -/
def c3Pre : LedgerState :=
  (record (record (record emptyState 0 1 1 1000 1000 0 10).1
      0 1 1 1000 0 950 20).1 0 1 1 1000 900 0 1).1

/-- Entry with both a positive deposit and a positive withdrawal and a
caller-supplied balance, exercising the branch order of
`groups.models.Entry.save`. -/
def c10Entry : Entry :=
  { id := 0, member := 0, book := 1, page_number := 1, row_number := 1, date := 0,
    deposit_amount := 500, withdrawal_amount := 300, current_balance := 999 }

/-- Entry used to instantiate the amended claim C10 at a concrete input. -/
def c10Dep : Entry :=
  { id := 0, member := 0, book := 1, page_number := 1, row_number := 1, date := 0,
    deposit_amount := 500, withdrawal_amount := 0, current_balance := 999 }

/-- A page-1 entry of member 0's book 1 at row `r` (deposit 10.00). -/
def page1Entry (r : Nat) : Entry :=
  { id := r - 1, member := 0, book := 1, page_number := 1, row_number := r, date := 0,
    deposit_amount := 1000, withdrawal_amount := 0, current_balance := 1000 * (r : Int) }

/-- Member 0, book 1: page 1 completely full (rows 1..31), pages 2..20 empty. -/
def c4FullState : LedgerState :=
  { entries := rows31.map page1Entry, nextId := 31,
    books := [(0, 1)], currentBook := [(0, 1)] }

/-- Member 0, book 1: page 1 completely full (rows 1..31), pages 2..20 empty.
Same shape as `c4FullState`, targeted by the C2 counterexample. -/
def c2FullState : LedgerState :=
  { entries := rows31.map page1Entry, nextId := 31,
    books := [(0, 1)], currentBook := [(0, 1)] }

/-- Member 0, book 1: page 1 with rows 1..30 occupied and row 31 free. -/
def c6State : LedgerState :=
  { entries := (List.range' 1 30).map page1Entry, nextId := 30,
    books := [(0, 1)], currentBook := [(0, 1)] }

/-- An entry of member 0's book 1 at page `pg`, row `r` (deposit 10.00). -/
def bookEntry (pg r : Nat) : Entry :=
  { id := (pg - 1) * 31 + (r - 1), member := 0, book := 1, page_number := pg,
    row_number := r, date := 0, deposit_amount := 1000, withdrawal_amount := 0,
    current_balance := 0 }

/-- Member 0, book 1 completely full: all 20 pages hold 31 entries each
(620 entries), so no free row remains anywhere in the current book. -/
def c5BookState : LedgerState :=
  { entries := (List.range' 1 20).flatMap (fun pg => rows31.map (bookEntry pg)),
    nextId := 620, books := [(0, 1)], currentBook := [(0, 1)] }

/-- The state the concrete C2 scenario must produce: three entries on page 1 of
book 1 — rows 1 and 2 with deposit 10.00 (balances 10.00, 20.00) and row 3 with
deposit 5.00 (balance 25.00). -/
def c2Result : LedgerState :=
  { entries :=
      [{ id := 0, member := 0, book := 1, page_number := 1, row_number := 1, date := 0,
         deposit_amount := 1000, withdrawal_amount := 0, current_balance := 1000 },
       { id := 1, member := 0, book := 1, page_number := 1, row_number := 2, date := 0,
         deposit_amount := 1000, withdrawal_amount := 0, current_balance := 2000 },
       { id := 2, member := 0, book := 1, page_number := 1, row_number := 3, date := 0,
         deposit_amount := 500, withdrawal_amount := 0, current_balance := 2500 }],
    nextId := 3, books := [], currentBook := [] }

/-- All of member `m`'s entries in `es` sort strictly before (date `d0`, row
`r`) in the (date, row_number) order, so a new entry at (`d0`, `r`) becomes the
member's latest entry in `order_by('-date','-row_number','-id')`. -/
def Below (es : List Entry) (m : Nat) (d0 : Int) (r : Nat) : Prop :=
  ∀ e ∈ es, e.member = m → e.date < d0 ∨ (e.date = d0 ∧ e.row_number < r)

/-! ## Helper lemmas -/

theorem foldl_pickMaxKey_mem (l : List Entry) :
    ∀ (acc : Option Entry) (r : Entry),
      l.foldl pickMaxKey acc = some r → r ∈ l ∨ acc = some r := by
  induction l with
  | nil => exact fun _ _ h => Or.inr h
  | cons x xs ih =>
    intro acc r h
    simp only [List.foldl_cons] at h
    rcases ih _ r h with hm | he
    · exact Or.inl (List.mem_cons_of_mem _ hm)
    · rcases acc with _ | a
      · simp only [pickMaxKey, Option.some.injEq] at he
        exact Or.inl (he ▸ List.mem_cons_self x xs)
      · simp only [pickMaxKey] at he
        split at he
        · rw [Option.some.injEq] at he
          exact Or.inl (he ▸ List.mem_cons_self x xs)
        · exact Or.inr he

theorem foldl_pickMaxKey_append (l : List Entry) (e : Entry)
    (hall : ∀ a ∈ l, keyLt a e = true) :
    (l ++ [e]).foldl pickMaxKey none = some e := by
  rw [List.foldl_append]
  rcases hfold : l.foldl pickMaxKey none with _ | a
  · rfl
  · have ha : a ∈ l := by
      rcases foldl_pickMaxKey_mem l none a hfold with h | h
      · exact h
      · cases h
    simp [pickMaxKey, hall a ha]

theorem lastByDateRowId_append (es : List Entry) (e : Entry) (m : Nat)
    (hm : e.member = m)
    (hall : ∀ a ∈ es, a.member = m → keyLt a e = true) :
    lastByDateRowId (es ++ [e]) m = some e := by
  unfold lastByDateRowId
  rw [List.filter_append, show List.filter (fun x => x.member == m) [e] = [e] by simp [hm]]
  refine foldl_pickMaxKey_append _ e ?_
  intro a ha
  have h := List.mem_filter.mp ha
  exact hall a h.1 (by simpa using h.2)

theorem contribSave_balance (es : List Entry) (e : Entry) :
    (contribSave es e).current_balance =
      contribPrevBalance es e.member + e.deposit_amount - e.withdrawal_amount := rfl

theorem replayEntries_balance (m b p : Nat) (d0 : Int) :
    ∀ (txs : List (Int × Int)) (es : List Entry) (r nid : Nat),
      Below es m d0 r →
      contribPrevBalance (replayEntries m b p d0 es r nid txs) m
          = contribPrevBalance es m + sumTxs txs ∧
      (txs ≠ [] → lastBalance (replayEntries m b p d0 es r nid txs)
          = contribPrevBalance es m + sumTxs txs) := by
  intro txs
  induction txs with
  | nil =>
    intro es r nid _
    exact ⟨by simp [replayEntries, sumTxs], fun h => absurd rfl h⟩
  | cons t ts ih =>
    obtain ⟨dep, wd⟩ := t
    intro es r nid hB
    have hreplay : replayEntries m b p d0 es r nid ((dep, wd) :: ts)
        = replayEntries m b p d0 (es ++ [contribSave es (txEntry m b p d0 r nid dep wd)])
            (r + 1) (nid + 1) ts := by
      simp [replayEntries]
    set e : Entry := contribSave es (txEntry m b p d0 r nid dep wd) with hedef
    have hlast : lastByDateRowId (es ++ [e]) m = some e := by
      refine lastByDateRowId_append es e m rfl ?_
      intro a ha ham
      rcases hB a ha ham with h | ⟨h1, h2⟩
      · simp [keyLt, hedef, contribSave, txEntry, h]
      · simp [keyLt, hedef, contribSave, txEntry, h1, h2]
    have hprev : contribPrevBalance (es ++ [e]) m = contribPrevBalance es m + dep - wd := by
      unfold contribPrevBalance
      rw [hlast]
      simp [hedef, contribSave, contribSaveBalance, contribPrevBalance, txEntry]
    have hB2 : Below (es ++ [e]) m d0 (r + 1) := by
      intro a ha ham
      rcases List.mem_append.mp ha with h | h
      · rcases hB a h ham with h1 | ⟨h1, h2⟩
        · exact Or.inl h1
        · exact Or.inr ⟨h1, Nat.lt_succ_of_lt h2⟩
      · have : a = e := by simpa using h
        subst this
        exact Or.inr ⟨rfl, Nat.lt_succ_self r⟩
    obtain ⟨ih1, ih2⟩ := ih (es ++ [e]) (r + 1) (nid + 1) hB2
    constructor
    · rw [hreplay, ih1, hprev]
      simp [sumTxs]
      omega
    · intro _
      rw [hreplay]
      cases ts with
      | nil =>
        have : replayEntries m b p d0 (es ++ [e]) (r + 1) (nid + 1) [] = es ++ [e] := by
          simp [replayEntries]
        rw [this]
        unfold lastBalance
        rw [List.getLast?_concat]
        simp [hedef, contribSave, contribSaveBalance, txEntry, sumTxs]
        omega
      | cons t2 ts2 =>
        rw [ih2 (by simp), hprev]
        simp [sumTxs]
        omega

@[simp] theorem contribSave_member (es : List Entry) (e : Entry) :
    (contribSave es e).member = e.member := rfl

@[simp] theorem contribSave_book (es : List Entry) (e : Entry) :
    (contribSave es e).book = e.book := rfl

@[simp] theorem contribSave_page (es : List Entry) (e : Entry) :
    (contribSave es e).page_number = e.page_number := rfl

@[simp] theorem contribSave_row (es : List Entry) (e : Entry) :
    (contribSave es e).row_number = e.row_number := rfl

@[simp] theorem contribSave_date (es : List Entry) (e : Entry) :
    (contribSave es e).date = e.date := rfl

@[simp] theorem contribSave_dep (es : List Entry) (e : Entry) :
    (contribSave es e).deposit_amount = e.deposit_amount := rfl

@[simp] theorem contribSave_wd (es : List Entry) (e : Entry) :
    (contribSave es e).withdrawal_amount = e.withdrawal_amount := rfl

@[simp] theorem newEntry_member (nid m b p r : Nat) (date dep wd sb : Int) :
    (newEntry nid m b p r date dep wd sb).member = m := rfl

@[simp] theorem newEntry_book (nid m b p r : Nat) (date dep wd sb : Int) :
    (newEntry nid m b p r date dep wd sb).book = b := rfl

@[simp] theorem newEntry_page (nid m b p r : Nat) (date dep wd sb : Int) :
    (newEntry nid m b p r date dep wd sb).page_number = p := rfl

@[simp] theorem newEntry_row (nid m b p r : Nat) (date dep wd sb : Int) :
    (newEntry nid m b p r date dep wd sb).row_number = r := rfl

@[simp] theorem newEntry_dep (nid m b p r : Nat) (date dep wd sb : Int) :
    (newEntry nid m b p r date dep wd sb).deposit_amount = dep := rfl

@[simp] theorem newEntry_wd (nid m b p r : Nat) (date dep wd sb : Int) :
    (newEntry nid m b p r date dep wd sb).withdrawal_amount = wd := rfl

@[simp] theorem createEntry_entries (s : LedgerState) (m b p r : Nat)
    (date dep wd sb : Int) :
    (createEntry s m b p r date dep wd sb).entries
      = s.entries ++ [contribSave s.entries (newEntry s.nextId m b p r date dep wd sb)] :=
  rfl

@[simp] theorem createEntry_books (s : LedgerState) (m b p r : Nat)
    (date dep wd sb : Int) :
    (createEntry s m b p r date dep wd sb).books = s.books := rfl

@[simp] theorem createEntry_currentBook (s : LedgerState) (m b p r : Nat)
    (date dep wd sb : Int) :
    (createEntry s m b p r date dep wd sb).currentBook = s.currentBook := rfl

theorem occupiedRows_append (es : List Entry) (e : Entry) (b p : Nat)
    (hb : e.book = b) (hp : e.page_number = p) :
    occupiedRows (es ++ [e]) b p = occupiedRows es b p ++ [e.row_number] := by
  simp [occupiedRows, List.filter_append, hb, hp]

theorem occupiedRows_createEntry (s : LedgerState) (m b p r : Nat)
    (date dep wd sb : Int) :
    occupiedRows (createEntry s m b p r date dep wd sb).entries b p
      = occupiedRows s.entries b p ++ [r] := by
  have h := occupiedRows_append s.entries
    (contribSave s.entries (newEntry s.nextId m b p r date dep wd sb)) b p rfl rfl
  simpa using h

theorem mem_occupiedRows {es : List Entry} {b p x : Nat} :
    x ∈ occupiedRows es b p ↔
      ∃ e ∈ es, e.book = b ∧ e.page_number = p ∧ e.row_number = x := by
  simp only [occupiedRows, List.mem_map, List.mem_filter, Bool.and_eq_true, beq_iff_eq]
  constructor
  · rintro ⟨e, ⟨he, hb, hp⟩, hr⟩
    exact ⟨e, he, hb, hp, hr⟩
  · rintro ⟨e, he, hb, hp, hr⟩
    exact ⟨e, ⟨he, hb, hp⟩, hr⟩

theorem fillFixedRows_preserve (m b p : Nat) (date rate : Int) (occupied : List Nat) :
    ∀ (rows : List Nat) (need : Nat) (s : LedgerState) (tb : Int),
      (fillFixedRows m b p date rate occupied s tb rows need).1.books = s.books ∧
      (fillFixedRows m b p date rate occupied s tb rows need).1.currentBook
        = s.currentBook := by
  intro rows
  induction rows with
  | nil => intro need s tb; cases need <;> exact ⟨rfl, rfl⟩
  | cons i rest ih =>
    intro need s tb
    cases need with
    | zero => exact ⟨rfl, rfl⟩
    | succ n =>
      by_cases hocc : i ∈ occupied
      · simpa [fillFixedRows, hocc] using ih (n + 1) s tb
      · have h := ih n (createEntry s m b p i date rate 0 (tb + rate)) (tb + rate)
        simpa [fillFixedRows, hocc] using h

theorem fillFixedRows_spec (m b p : Nat) (date rate : Int) (occupied : List Nat) :
    ∀ (rows : List Nat) (need : Nat) (s : LedgerState) (tb : Int),
      (fillFixedRows m b p date rate occupied s tb rows need).1.entries.length
          = s.entries.length
            + min need ((rows.filter (fun i => !(occupied.contains i))).length) ∧
      (fillFixedRows m b p date rate occupied s tb rows need).2.1
          = min need ((rows.filter (fun i => !(occupied.contains i))).length) ∧
      occupiedRows (fillFixedRows m b p date rate occupied s tb rows need).1.entries b p
          = occupiedRows s.entries b p
            ++ ((rows.filter (fun i => !(occupied.contains i))).take need) := by
  intro rows
  induction rows with
  | nil =>
    intro need s tb
    cases need <;> simp [fillFixedRows]
  | cons i rest ih =>
    intro need s tb
    cases need with
    | zero => simp [fillFixedRows]
    | succ n =>
      by_cases hocc : i ∈ occupied
      · have h := ih (n + 1) s tb
        simpa [fillFixedRows, hocc] using h
      · obtain ⟨h1, h2, h3⟩ := ih n (createEntry s m b p i date rate 0 (tb + rate)) (tb + rate)
        refine ⟨?_, ?_, ?_⟩
        · simp [fillFixedRows, hocc, h1, Nat.succ_min_succ]
          omega
        · simp [fillFixedRows, hocc, h2, Nat.succ_min_succ]
        · have h4 := occupiedRows_append s.entries
            (contribSave s.entries (newEntry s.nextId m b p i date rate 0 (tb + rate)))
            b p rfl rfl
          simp only [contribSave_row, newEntry_row] at h4
          simp [fillFixedRows, hocc, h3, h4]

theorem fillFixedRows_noop (m b p : Nat) (date rate : Int) (occupied : List Nat) :
    ∀ (rows : List Nat) (need : Nat) (s : LedgerState) (tb : Int),
      (∀ i ∈ rows, i ∈ occupied) →
      fillFixedRows m b p date rate occupied s tb rows need = (s, 0, tb) := by
  intro rows
  induction rows with
  | nil => intro need s tb _; cases need <;> rfl
  | cons i rest ih =>
    intro need s tb hall
    cases need with
    | zero => rfl
    | succ n =>
      have hocc : i ∈ occupied := hall i (List.mem_cons_self i rest)
      simp [fillFixedRows, hocc,
        ih (n + 1) s tb (fun j hj => hall j (List.mem_cons_of_mem _ hj))]

theorem fillFixedRows_mem (m b p : Nat) (date rate : Int) (occupied : List Nat) :
    ∀ (rows : List Nat) (need : Nat) (s : LedgerState) (tb : Int),
      ∀ e ∈ (fillFixedRows m b p date rate occupied s tb rows need).1.entries,
        e ∈ s.entries ∨ (e.member = m ∧ e.book = b ∧ e.page_number = p) := by
  intro rows
  induction rows with
  | nil =>
    intro need s tb e he
    cases need <;> exact Or.inl he
  | cons i rest ih =>
    intro need s tb e he
    cases need with
    | zero => exact Or.inl he
    | succ n =>
      by_cases hocc : i ∈ occupied
      · rw [show fillFixedRows m b p date rate occupied s tb (i :: rest) (n + 1)
            = fillFixedRows m b p date rate occupied s tb rest (n + 1) by
          simp [fillFixedRows, hocc]] at he
        exact ih (n + 1) s tb e he
      · have he2 : e ∈ (fillFixedRows m b p date rate occupied
            (createEntry s m b p i date rate 0 (tb + rate)) (tb + rate) rest n).1.entries := by
          have hred : (fillFixedRows m b p date rate occupied s tb (i :: rest) (n + 1)).1
              = (fillFixedRows m b p date rate occupied
                  (createEntry s m b p i date rate 0 (tb + rate)) (tb + rate) rest n).1 := by
            simp [fillFixedRows, hocc]
          rw [hred] at he
          exact he
        rcases ih n (createEntry s m b p i date rate 0 (tb + rate)) (tb + rate) e he2
          with h | h
        · rcases (show e ∈ s.entries ∨ e = contribSave s.entries
              (newEntry s.nextId m b p i date rate 0 (tb + rate)) by simpa using h)
            with h2 | h2
          · exact Or.inl h2
          · subst h2
            exact Or.inr ⟨rfl, rfl, rfl⟩
        · exact Or.inr h

theorem Inv_append_entry (es : List Entry) (e : Entry)
    (h1 : 1 ≤ e.row_number) (h2 : e.row_number ≤ 31)
    (hfresh : ∀ a ∈ es, a.book = e.book → a.page_number = e.page_number →
      a.row_number ≠ e.row_number)
    (hInv : Inv es) : Inv (es ++ [e]) := by
  obtain ⟨hbnd, hpw⟩ := hInv
  refine ⟨?_, ?_⟩
  · intro a ha
    rcases List.mem_append.mp ha with h | h
    · exact hbnd a h
    · have ha2 : a = e := by simpa using h
      subst ha2
      exact ⟨h1, h2⟩
  · rw [List.pairwise_append]
    refine ⟨hpw, List.pairwise_singleton _ _, ?_⟩
    intro a ha e' he'
    have he2 : e' = e := by simpa using he'
    subst he2
    unfold DistinctSlot
    rintro ⟨hb, hp, hr⟩
    exact hfresh a ha hb hp hr

theorem fillFixedRows_inv (m b p : Nat) (date rate : Int) (occupied : List Nat) :
    ∀ (rows : List Nat) (need : Nat) (s : LedgerState) (tb : Int),
      rows.Nodup →
      (∀ r ∈ rows, 1 ≤ r ∧ r ≤ 31) →
      (∀ e ∈ s.entries, e.book = b → e.page_number = p →
        e.row_number ∈ occupied ∨ e.row_number ∉ rows) →
      Inv s.entries →
      Inv (fillFixedRows m b p date rate occupied s tb rows need).1.entries := by
  intro rows
  induction rows with
  | nil =>
    intro need s tb _ _ _ hInv
    cases need <;> exact hInv
  | cons i rest ih =>
    intro need s tb hnd hbnd hpage hInv
    cases need with
    | zero => exact hInv
    | succ n =>
      by_cases hocc : i ∈ occupied
      · rw [show (fillFixedRows m b p date rate occupied s tb (i :: rest) (n + 1)).1
            = (fillFixedRows m b p date rate occupied s tb rest (n + 1)).1 by
          simp [fillFixedRows, hocc]]
        refine ih (n + 1) s tb (List.nodup_cons.mp hnd).2
          (fun r hr => hbnd r (List.mem_cons_of_mem _ hr)) ?_ hInv
        intro e he hb hp
        rcases hpage e he hb hp with h | h
        · exact Or.inl h
        · exact Or.inr (fun hmem => h (List.mem_cons_of_mem _ hmem))
      · rw [show (fillFixedRows m b p date rate occupied s tb (i :: rest) (n + 1)).1
            = (fillFixedRows m b p date rate occupied
                (createEntry s m b p i date rate 0 (tb + rate)) (tb + rate) rest n).1 by
          simp [fillFixedRows, hocc]]
        have hib : 1 ≤ i ∧ i ≤ 31 := hbnd i (List.mem_cons_self i rest)
        have hinv2 : Inv (createEntry s m b p i date rate 0 (tb + rate)).entries := by
          rw [createEntry_entries]
          refine Inv_append_entry _ _ (by simpa using hib.1) (by simpa using hib.2) ?_ hInv
          intro a ha hb hp
          simp only [contribSave_row, newEntry_row, contribSave_book, newEntry_book,
            contribSave_page, newEntry_page] at hb hp ⊢
          rcases hpage a ha hb hp with h | h
          · intro heq
            exact hocc (heq ▸ h)
          · intro heq
            exact h (heq ▸ List.mem_cons_self i rest)
        refine ih n (createEntry s m b p i date rate 0 (tb + rate)) (tb + rate)
          (List.nodup_cons.mp hnd).2 (fun r hr => hbnd r (List.mem_cons_of_mem _ hr))
          ?_ hinv2
        intro e he hb hp
        rcases (show e ∈ s.entries ∨ e = contribSave s.entries
            (newEntry s.nextId m b p i date rate 0 (tb + rate)) by simpa using he)
          with h2 | h2
        · rcases hpage e h2 hb hp with h | h
          · exact Or.inl h
          · exact Or.inr (fun hmem => h (List.mem_cons_of_mem _ hmem))
        · subst h2
          exact Or.inr (by simpa using (List.nodup_cons.mp hnd).1)

theorem remainderRow_none (occupied : List Nat) (n : Nat)
    (h : (rows31.filter (fun i => !(occupied.contains i))).length ≤ n) :
    remainderRow occupied
      (occupied ++ (rows31.filter (fun i => !(occupied.contains i))).take n) = none := by
  unfold remainderRow
  rw [List.find?_eq_none]
  intro i hi hp
  rw [List.take_of_length_le h] at hp
  simp only [Bool.and_eq_true, Bool.not_eq_true', List.elem_eq_mem,
    List.mem_append, decide_eq_false_iff_not] at hp
  obtain ⟨h1, h2⟩ := hp
  exact h2 (Or.inr (List.mem_filter.mpr ⟨hi, by simpa using h1⟩))

theorem remainderRow_isSome (occupied : List Nat) (n : Nat)
    (h : n < (rows31.filter (fun i => !(occupied.contains i))).length) :
    (remainderRow occupied
      (occupied ++ (rows31.filter (fun i => !(occupied.contains i))).take n)).isSome := by
  have hnd : (rows31.filter (fun i => !(occupied.contains i))).Nodup :=
    (List.nodup_range' 1 31).filter _
  set fl := rows31.filter (fun i => !(occupied.contains i)) with hfl
  unfold remainderRow
  rw [List.find?_isSome]
  refine ⟨fl.get ⟨n, h⟩, ?_, ?_⟩
  · exact (List.mem_filter.mp (List.get_mem fl n h)).1
  · have hxfl : fl.get ⟨n, h⟩ ∈ fl := List.get_mem fl n h
    have hxocc : fl.get ⟨n, h⟩ ∉ occupied := by
      have h2 := (List.mem_filter.mp hxfl).2
      simpa using h2
    have hxdrop : fl.get ⟨n, h⟩ ∈ fl.drop n := by
      have hg : fl.get ⟨n, h⟩ = fl[n] := rfl
      rw [hg, List.drop_eq_getElem_cons h]
      exact List.mem_cons_self _ _
    have hxtake : fl.get ⟨n, h⟩ ∉ fl.take n :=
      fun hmem => List.disjoint_take_drop hnd (le_refl n) hmem hxdrop
    simp only [Bool.and_eq_true, Bool.not_eq_true', List.elem_eq_mem,
      List.mem_append, decide_eq_false_iff_not]
    exact ⟨hxocc, fun hor => hor.elim hxocc hxtake⟩

theorem record_preserve (s : LedgerState) (m b p : Nat) (rate dep wd date : Int) :
    (record s m b p rate dep wd date).1.books = s.books ∧
    (record s m b p rate dep wd date).1.currentBook = s.currentBook := by
  unfold record
  by_cases hw : wd > 0
  · simp only [if_pos hw]
    by_cases hbal : wd > viewCurrentBalance s m
    · simp [hbal]
    · simp only [if_neg hbal]
      cases hnext : nextFreeRow (occupiedRows s.entries b p) <;> simp [hnext]
  · simp only [if_neg hw]
    by_cases hd : dep > 0
    · simp only [if_pos hd]
      obtain ⟨hb1, hb2⟩ := fillFixedRows_preserve m b p date rate
        (occupiedRows s.entries b p) rows31 ((Int.ediv dep rate).toNat) s
        (viewCurrentBalance s m)
      by_cases hrem : Int.emod dep rate > 0
      · simp only [if_pos hrem]
        cases hrr : remainderRow (occupiedRows s.entries b p)
            (occupiedRows (fillFixedRows m b p date rate (occupiedRows s.entries b p) s
              (viewCurrentBalance s m) rows31 ((Int.ediv dep rate).toNat)).1.entries b p) with
        | some r => simp [hrr, hb1, hb2]
        | none => simp [hrr, hb1, hb2]
      · simp only [if_neg hrem]
        exact ⟨hb1, hb2⟩
    · simp [hd]

theorem rows31_nodup : rows31.Nodup := List.nodup_range' 1 31

theorem rows31_bounds : ∀ r ∈ rows31, 1 ≤ r ∧ r ≤ 31 := by
  intro r hr
  have h := List.mem_range'_1.mp hr
  omega

theorem record_deposit_count (s : LedgerState) (m b p : Nat) (rate dep date : Int)
    (hd : 0 < dep) :
    (record s m b p rate dep 0 date).1.entries.length
        = s.entries.length + min ((Int.ediv dep rate).toNat) (freeCount s b p)
          + (if 0 < Int.emod dep rate ∧ (Int.ediv dep rate).toNat < freeCount s b p
             then 1 else 0) ∧
    (record s m b p rate dep 0 date).2
        = RecordResult.recorded (min ((Int.ediv dep rate).toNat) (freeCount s b p)
            + (if 0 < Int.emod dep rate ∧ (Int.ediv dep rate).toNat < freeCount s b p
               then 1 else 0)) := by
  have hw : ¬(0 : Int) > 0 := lt_irrefl 0
  obtain ⟨h1, h2, h3⟩ := fillFixedRows_spec m b p date rate (occupiedRows s.entries b p)
    rows31 ((Int.ediv dep rate).toNat) s (viewCurrentBalance s m)
  unfold record
  rw [if_neg hw, if_pos hd]
  by_cases hrem : Int.emod dep rate > 0
  · rw [if_pos hrem]
    by_cases hfree : (Int.ediv dep rate).toNat < freeCount s b p
    · have hsome := remainderRow_isSome (occupiedRows s.entries b p)
        ((Int.ediv dep rate).toNat) hfree
      rw [← h3] at hsome
      obtain ⟨r, hr⟩ := Option.isSome_iff_exists.mp hsome
      rw [hr]
      constructor
      · simp only [createEntry_entries, List.length_append, List.length_cons,
          List.length_nil, h1]
        rw [if_pos ⟨hrem, hfree⟩]
        unfold freeCount
        omega
      · rw [if_pos ⟨hrem, hfree⟩, h2]
        unfold freeCount
        rfl
    · have hnone := remainderRow_none (occupiedRows s.entries b p)
        ((Int.ediv dep rate).toNat) (by unfold freeCount at hfree; omega)
      rw [← h3] at hnone
      rw [hnone]
      rw [if_neg (fun hand => hfree hand.2)]
      refine ⟨?_, ?_⟩
      · rw [h1]; unfold freeCount; omega
      · rw [h2]; unfold freeCount; rfl
  · rw [if_neg hrem]
    rw [if_neg (fun hand => hrem hand.1)]
    refine ⟨?_, ?_⟩
    · rw [h1]; unfold freeCount; omega
    · rw [h2]; unfold freeCount; rfl

theorem record_full_noop (s : LedgerState) (m b p : Nat) (rate dep wd date : Int)
    (hfree : freeCount s b p = 0) :
    (record s m b p rate dep wd date).1 = s := by
  have hall : ∀ i ∈ rows31, i ∈ occupiedRows s.entries b p := by
    intro i hi
    by_contra hno
    have hmem : i ∈ rows31.filter
        (fun j => !((occupiedRows s.entries b p).contains j)) :=
      List.mem_filter.mpr ⟨hi, by simpa using hno⟩
    unfold freeCount at hfree
    rw [List.length_eq_zero] at hfree
    rw [hfree] at hmem
    exact absurd hmem (List.not_mem_nil i)
  have hnext : nextFreeRow (occupiedRows s.entries b p) = none := by
    unfold nextFreeRow
    rw [List.find?_eq_none]
    intro i hi
    simpa using hall i hi
  have hrnone : ∀ pageRowsNow, remainderRow (occupiedRows s.entries b p) pageRowsNow = none := by
    intro pageRowsNow
    unfold remainderRow
    rw [List.find?_eq_none]
    intro i hi
    simp only [Bool.and_eq_true, Bool.not_eq_true', List.elem_eq_mem,
      decide_eq_false_iff_not]
    rintro ⟨hcon, _⟩
    exact hcon (hall i hi)
  unfold record
  by_cases hwd : wd > 0
  · rw [if_pos hwd]
    by_cases hbal : wd > viewCurrentBalance s m
    · rw [if_pos hbal]
    · rw [if_neg hbal, hnext]
  · rw [if_neg hwd]
    by_cases hdep : dep > 0
    · rw [if_pos hdep]
      dsimp only
      rw [fillFixedRows_noop m b p date rate (occupiedRows s.entries b p) rows31
        ((Int.ediv dep rate).toNat) s (viewCurrentBalance s m) hall]
      by_cases hrem : Int.emod dep rate > 0
      · rw [if_pos hrem, hrnone]
      · rw [if_neg hrem]
    · rw [if_neg hdep]

theorem record_mem (s : LedgerState) (m b p : Nat) (rate dep wd date : Int) :
    ∀ e ∈ (record s m b p rate dep wd date).1.entries,
      e ∈ s.entries ∨ (e.member = m ∧ e.book = b ∧ e.page_number = p) := by
  intro e he
  unfold record at he
  by_cases hwd : wd > 0
  · rw [if_pos hwd] at he
    by_cases hbal : wd > viewCurrentBalance s m
    · rw [if_pos hbal] at he
      exact Or.inl he
    · rw [if_neg hbal] at he
      cases hnext : nextFreeRow (occupiedRows s.entries b p) with
      | none =>
        rw [hnext] at he
        exact Or.inl he
      | some r =>
        rw [hnext] at he
        rcases (show e ∈ s.entries ∨ e = contribSave s.entries
            (newEntry s.nextId m b p r date 0 wd (viewCurrentBalance s m - wd))
            by simpa using he) with h | h
        · exact Or.inl h
        · subst h
          exact Or.inr ⟨rfl, rfl, rfl⟩
  · rw [if_neg hwd] at he
    by_cases hdep : dep > 0
    · rw [if_pos hdep] at he
      by_cases hrem : Int.emod dep rate > 0
      · rw [if_pos hrem] at he
        cases hrr : remainderRow (occupiedRows s.entries b p)
            (occupiedRows (fillFixedRows m b p date rate (occupiedRows s.entries b p) s
              (viewCurrentBalance s m) rows31 ((Int.ediv dep rate).toNat)).1.entries b p) with
        | none =>
          rw [hrr] at he
          exact fillFixedRows_mem m b p date rate (occupiedRows s.entries b p)
            rows31 ((Int.ediv dep rate).toNat) s (viewCurrentBalance s m) e he
        | some r =>
          rw [hrr] at he
          rcases (show e ∈ (fillFixedRows m b p date rate (occupiedRows s.entries b p) s
                (viewCurrentBalance s m) rows31 ((Int.ediv dep rate).toNat)).1.entries
              ∨ e = contribSave (fillFixedRows m b p date rate (occupiedRows s.entries b p) s
                (viewCurrentBalance s m) rows31 ((Int.ediv dep rate).toNat)).1.entries
                (newEntry (fillFixedRows m b p date rate (occupiedRows s.entries b p) s
                  (viewCurrentBalance s m) rows31 ((Int.ediv dep rate).toNat)).1.nextId
                  m b p r date (Int.emod dep rate) 0
                  ((fillFixedRows m b p date rate (occupiedRows s.entries b p) s
                    (viewCurrentBalance s m) rows31 ((Int.ediv dep rate).toNat)).2.2
                    + Int.emod dep rate))
              by simpa using he) with h | h
          · exact fillFixedRows_mem m b p date rate (occupiedRows s.entries b p)
              rows31 ((Int.ediv dep rate).toNat) s (viewCurrentBalance s m) e h
          · subst h
            exact Or.inr ⟨rfl, rfl, rfl⟩
      · rw [if_neg hrem] at he
        exact fillFixedRows_mem m b p date rate (occupiedRows s.entries b p)
          rows31 ((Int.ediv dep rate).toNat) s (viewCurrentBalance s m) e he
    · rw [if_neg hdep] at he
      exact Or.inl he

theorem record_inv (s : LedgerState) (m b p : Nat) (rate dep wd date : Int)
    (hInv : Inv s.entries) : Inv (record s m b p rate dep wd date).1.entries := by
  have hpage0 : ∀ e ∈ s.entries, e.book = b → e.page_number = p →
      e.row_number ∈ occupiedRows s.entries b p ∨ e.row_number ∉ rows31 := by
    intro e he hb hp
    exact Or.inl (mem_occupiedRows.mpr ⟨e, he, hb, hp, rfl⟩)
  have hfillInv : Inv (fillFixedRows m b p date rate (occupiedRows s.entries b p) s
      (viewCurrentBalance s m) rows31 ((Int.ediv dep rate).toNat)).1.entries :=
    fillFixedRows_inv m b p date rate (occupiedRows s.entries b p) rows31
      ((Int.ediv dep rate).toNat) s (viewCurrentBalance s m)
      rows31_nodup rows31_bounds hpage0 hInv
  unfold record
  by_cases hwd : wd > 0
  · rw [if_pos hwd]
    by_cases hbal : wd > viewCurrentBalance s m
    · rw [if_pos hbal]
      exact hInv
    · rw [if_neg hbal]
      cases hnext : nextFreeRow (occupiedRows s.entries b p) with
      | none => exact hInv
      | some r =>
        have hr31 : r ∈ rows31 := List.mem_of_find?_eq_some hnext
        have hrocc : r ∉ occupiedRows s.entries b p := by
          have hp := List.find?_some hnext
          simpa using hp
        rw [createEntry_entries]
        refine Inv_append_entry _ _ (by simpa using (rows31_bounds r hr31).1)
          (by simpa using (rows31_bounds r hr31).2) ?_ hInv
        intro a ha hb hp heq
        exact hrocc (mem_occupiedRows.mpr ⟨a, ha, by simpa using hb, by simpa using hp,
          by simpa using heq⟩)
  · rw [if_neg hwd]
    by_cases hdep : dep > 0
    · rw [if_pos hdep]
      by_cases hrem : Int.emod dep rate > 0
      · rw [if_pos hrem]
        cases hrr : remainderRow (occupiedRows s.entries b p)
            (occupiedRows (fillFixedRows m b p date rate (occupiedRows s.entries b p) s
              (viewCurrentBalance s m) rows31 ((Int.ediv dep rate).toNat)).1.entries b p) with
        | none => exact hfillInv
        | some r =>
          have hr31 : r ∈ rows31 := List.mem_of_find?_eq_some hrr
          have hrocc : r ∉ occupiedRows (fillFixedRows m b p date rate
              (occupiedRows s.entries b p) s (viewCurrentBalance s m) rows31
              ((Int.ediv dep rate).toNat)).1.entries b p := by
            have hp := List.find?_some hrr
            simp only [Bool.and_eq_true, Bool.not_eq_true', List.elem_eq_mem,
              decide_eq_false_iff_not] at hp
            exact hp.2
          rw [createEntry_entries]
          refine Inv_append_entry _ _ (by simpa using (rows31_bounds r hr31).1)
            (by simpa using (rows31_bounds r hr31).2) ?_ hfillInv
          intro a ha hb hp heq
          exact hrocc (mem_occupiedRows.mpr ⟨a, ha, by simpa using hb, by simpa using hp,
            by simpa using heq⟩)
      · rw [if_neg hrem]
        exact hfillInv
    · rw [if_neg hdep]
      exact hInv

theorem applyRequests_inv : ∀ (reqs : List Request) (s : LedgerState),
    Inv s.entries → Inv (applyRequests s reqs).entries := by
  intro reqs
  induction reqs with
  | nil => exact fun s h => h
  | cons q qs ih =>
    intro s h
    exact ih _ (record_inv s q.member q.book q.page q.rate q.dep q.wd q.date h)

/-! ## Claim theorems -/

/-- C1 (amended): the balance a written entry stores is not computed per book.
`contributions.models.Entry.save` — the model the record view writes through —
stores the balance of the member's latest prior entry ordered by
(date, row_number, id) ACROSS ALL BOOKS AND PAGES (0 if the member has no
entry), plus the deposit minus the withdrawal; consequently, for every sequence
of deposits and withdrawals saved with a common date at ascending rows of one
page, the final entry's stored balance equals the sum of all deposits minus the
sum of all withdrawals of that sequence. -/
theorem c1_theorem (m b p : Nat) (d0 : Int) (txs : List (Int × Int)) :
    (∀ (es : List Entry) (e : Entry), (contribSave es e).current_balance
        = contribPrevBalance es e.member + e.deposit_amount - e.withdrawal_amount) ∧
    lastBalance (replayEntries m b p d0 [] 1 0 txs) = sumTxs txs := by
  refine ⟨fun es e => rfl, ?_⟩
  cases txs with
  | nil => rfl
  | cons t ts =>
    have hB : Below [] m d0 1 := by intro a ha; exact absurd ha (List.not_mem_nil a)
    have h := (replayEntries_balance m b p d0 (t :: ts) [] 1 0 hB).2 (by simp)
    simpa [contribPrevBalance, lastByDateRowId] using h

/-- C8: for every record request whose amount is not positive (deposit ≤ 0 and
withdrawal ≤ 0, so no full row and no remainder), the operation fails with the
invalid-amount error and writes no entries: the state is returned unchanged. -/
theorem c8_theorem (s : LedgerState) (m b p : Nat) (rate dep wd date : Int)
    (hd : dep ≤ 0) (hw : wd ≤ 0) :
    record s m b p rate dep wd date = (s, RecordResult.invalidAmount) := by
  simp [record, show ¬wd > 0 from not_lt.mpr hw, show ¬dep > 0 from not_lt.mpr hd]

/-- Witness for C8 at a concrete input: deposit 0, withdrawal 0. -/
theorem c8_witness :
    record emptyState 0 1 1 1000 0 0 5 = (emptyState, RecordResult.invalidAmount) :=
  c8_theorem emptyState 0 1 1 1000 0 0 5 (by decide) (by decide)

/-- C9: slot discovery is idempotent — evaluating the view's next-free-row scan
twice over the same state, with no write in between, yields the same slot. -/
theorem c9_theorem (s : LedgerState) (b p : Nat) :
    (nextSlotTwice s b p).1 = (nextSlotTwice s b p).2 := rfl

/-- C3 (amended): a withdrawal strictly exceeding the balance the view reads
(the member's last entry by id, 0 if none) is rejected with the
insufficient-funds error and the state — hence every stored balance — is
returned unchanged. -/
theorem c3_theorem (s : LedgerState) (m b p : Nat) (rate dep wd date : Int)
    (hw : 0 < wd) (hbal : viewCurrentBalance s m < wd) :
    record s m b p rate dep wd date = (s, RecordResult.insufficientFunds) := by
  simp [record, hw, hbal]

/-- Witness for C3 at a concrete input: withdrawal 5 from an empty ledger. -/
theorem c3_witness :
    record emptyState 0 1 1 1000 0 500 0 = (emptyState, RecordResult.insufficientFunds) :=
  c3_theorem emptyState 0 1 1 1000 0 500 0 (by decide) (by decide)

/-- C3 counterexample: after three accepted record calls (`c3Pre`), a fourth
withdrawal of 9.00 passes the insufficient-funds check (checked balance 9.50,
the last entry by id) yet is stored with balance −8.50, because
`contributions.models.Entry.save` recomputes from the member's last entry by
(date, row, id), whose balance is 0.50.  So an entry IS written with a negative
balance, refuting the claim's final clause. -/
theorem c3_counterexample :
    (record c3Pre 0 1 1 1000 0 900 15).2 = RecordResult.recorded 1 ∧
    (record c3Pre 0 1 1 1000 0 900 15).1.entries.any
      (fun e => decide (e.current_balance < 0)) = true := by decide

/-- C1 counterexample: deposit 10.00 into book 1, then deposit 5.00 into a
fresh book 2.  The first entry written in book 2 is stored with balance 15.00
(`contributions.models.Entry.save` carries the member's balance across books),
while the claim's rule — previous entry in the same book, or 0 for the first
entry of a book, plus deposit — prescribes 5.00. -/
theorem c1_counterexample :
    (c1State.entries.getLast?).map Entry.current_balance = some 1500 ∧
    specBookSaveBalance (record emptyState 0 1 1 1000 1000 0 0).1.entries c1Proto = 500 ∧
    (1500 : Int) ≠ 500 := by decide

/-- C10 counterexample: an entry created via `groups.models.Entry.save` with
deposit 5.00 AND withdrawal 3.00 (supplied balance 9.99) is stored with balance
5.00 — the withdrawal is ignored in the deposit branch — while the claim's
formula (previous + deposit − withdrawal) prescribes 2.00. -/
theorem c10_counterexample :
    (groupsSave [] c10Entry).current_balance = 500 ∧
    specSaveBalance [] c10Entry = 200 ∧ (500 : Int) ≠ 200 := by decide

/-- C10 (amended): `groups.models.Entry.save` discards any caller-supplied
balance whenever an amount is positive, storing previous-balance-on-the-same-
page-for-the-same-member plus the deposit when the deposit is positive, minus
the withdrawal when only the withdrawal is positive; when both amounts are zero
(or negative) the caller-supplied balance is kept unmodified. -/
theorem c10_theorem (es : List Entry) (e : Entry) :
    (∀ b : Int, 0 < e.deposit_amount ∨ 0 < e.withdrawal_amount →
      (groupsSave es { e with current_balance := b }).current_balance =
        (groupsSave es e).current_balance) ∧
    (0 < e.deposit_amount →
      (groupsSave es e).current_balance =
        ((prevOnPage es e.member e.book e.page_number).map Entry.current_balance).getD 0
          + e.deposit_amount) ∧
    (e.deposit_amount ≤ 0 → 0 < e.withdrawal_amount →
      (groupsSave es e).current_balance =
        ((prevOnPage es e.member e.book e.page_number).map Entry.current_balance).getD 0
          - e.withdrawal_amount) ∧
    (e.deposit_amount ≤ 0 → e.withdrawal_amount ≤ 0 →
      (groupsSave es e).current_balance = e.current_balance) := by
  refine ⟨?_, ?_, ?_, ?_⟩
  · intro b h
    rcases lt_or_le 0 e.deposit_amount with hd | hd
    · simp [groupsSave, groupsSaveBalance, hd]
    · rcases h with h | h
      · exact absurd h (not_lt.mpr hd)
      · simp [groupsSave, groupsSaveBalance, show ¬e.deposit_amount > 0 from not_lt.mpr hd, h]
  · intro hd
    simp [groupsSave, groupsSaveBalance, hd]
  · intro hd hw
    simp [groupsSave, groupsSaveBalance, show ¬e.deposit_amount > 0 from not_lt.mpr hd, hw]
  · intro hd hw
    simp [groupsSave, groupsSaveBalance, show ¬e.deposit_amount > 0 from not_lt.mpr hd,
      show ¬e.withdrawal_amount > 0 from not_lt.mpr hw]

/-- C2 (amended): a deposit of amount A at fixed rate R writes
min(⌊A/R⌋, free) entries with deposit_amount = R — where free is the number of
free rows on the requested page — plus one remainder entry exactly when the
remainder A mod R is positive and a free row is left after the full rows; in
particular, for fixed rate 10.00 and a fresh member, a deposit of 25.00 writes
two entries of 10.00 (balances 10.00 and 20.00) and one entry of 5.00 (balance
25.00) at row_numbers 1, 2, 3 of page 1. -/
theorem c2_theorem (s : LedgerState) (m b p : Nat) (rate dep date : Int)
    (hrate : 0 < rate) (hdep : 0 < dep) :
    ((record s m b p rate dep 0 date).1.entries.length
        = s.entries.length + min ((Int.ediv dep rate).toNat) (freeCount s b p)
          + (if 0 < Int.emod dep rate ∧ (Int.ediv dep rate).toNat < freeCount s b p
             then 1 else 0)) ∧
    record emptyState 0 1 1 1000 2500 0 0 = (c2Result, RecordResult.recorded 3) :=
  ⟨(record_deposit_count s m b p rate dep date hdep).1, by decide⟩

/-- Witness for C2 at a concrete input: deposit 25.00, rate 10.00, fresh
member. -/
theorem c2_witness :
    ((record emptyState 0 1 1 1000 2500 0 0).1.entries.length
        = emptyState.entries.length
          + min ((Int.ediv 2500 1000).toNat) (freeCount emptyState 1 1)
          + (if 0 < Int.emod 2500 1000 ∧ (Int.ediv 2500 1000).toNat < freeCount emptyState 1 1
             then 1 else 0)) ∧
    record emptyState 0 1 1 1000 2500 0 0 = (c2Result, RecordResult.recorded 3) :=
  c2_theorem emptyState 0 1 1 1000 2500 0 (by decide) (by decide)

/-- C2 counterexample: on a page whose 31 rows are all occupied, a deposit of
25.00 at fixed rate 10.00 writes zero entries — not the claimed two full-rate
entries followed by a remainder entry. -/
theorem c2_counterexample :
    record c2FullState 0 1 1 1000 2500 0 0 = (c2FullState, RecordResult.recorded 0) := by
  decide

/-- C4 (amended): slot allocation scans only the single page named in the
request, taking its first free row in ascending order 1..31: every entry
present after a record call either existed before or lies on the requested
page, and when the requested page has no free row the call writes nothing at
all — it does not roll over to another page or to a new book. -/
theorem c4_theorem (s : LedgerState) (m b p : Nat) (rate dep wd date : Int) :
    (∀ e ∈ (record s m b p rate dep wd date).1.entries,
      e ∈ s.entries ∨ (e.member = m ∧ e.book = b ∧ e.page_number = p)) ∧
    (freeCount s b p = 0 → (record s m b p rate dep wd date).1 = s) :=
  ⟨record_mem s m b p rate dep wd date, record_full_noop s m b p rate dep wd date⟩

/-- Witness for C4 at a concrete input: the full-page state. -/
theorem c4_witness :
    (page1Entry 1 ∈ c4FullState.entries ∨
      ((page1Entry 1).member = 0 ∧ (page1Entry 1).book = 1 ∧
        (page1Entry 1).page_number = 1)) ∧
    (record c4FullState 0 1 1 1000 1000 0 0).1 = c4FullState :=
  ⟨(c4_theorem c4FullState 0 1 1 1000 1000 0 0).1 (page1Entry 1) (by decide),
   (c4_theorem c4FullState 0 1 1 1000 1000 0 0).2 (by decide)⟩

/-- C4 counterexample: with page 1 of the book holding 31 entries and pages
2–20 empty, a one-row deposit of 10.00 at fixed rate 10.00 returns the state
unchanged with 0 rows filled — nothing is written to row 1 of page 2, refuting
the claimed page rollover. -/
theorem c4_counterexample :
    record c4FullState 0 1 1 1000 1000 0 0 = (c4FullState, RecordResult.recorded 0) ∧
    (c4FullState.entries.filter (fun e => e.page_number == 2)).length = 0 := by
  decide

/-- C5 (amended): the record operation never creates a DigitalBook and never
updates the member's current_book, whatever the deposit size: the books table
and the current-book pointer after any record call are exactly those before
it. -/
theorem c5_theorem (s : LedgerState) (m b p : Nat) (rate dep wd date : Int) :
    (record s m b p rate dep wd date).1.books = s.books ∧
    (record s m b p rate dep wd date).1.currentBook = s.currentBook :=
  record_preserve s m b p rate dep wd date

/-- C5 counterexample: with member 0's book 1 entirely full (620 entries over
all 20 pages, so the deposit cannot fit in the remaining free rows of the
current book), a deposit of 10.00 writes nothing and no additional book is
created — books stay [(0, 1)] and the state is unchanged, refuting the claimed
automatic book creation and balance restart. -/
theorem c5_counterexample :
    record c5BookState 0 1 1 1000 1000 0 0 = (c5BookState, RecordResult.recorded 0) ∧
    (record c5BookState 0 1 1 1000 1000 0 0).1.books = [(0, 1)] := by
  decide

/-- C6 (amended): the record operation is not atomic; entries are persisted one
at a time, and a deposit needing more fixed-rate rows than the requested page
has free leaves a partial set visible: exactly the free rows are filled (fewer
than requested) and the rest of the deposit is not written. -/
theorem c6_theorem (s : LedgerState) (m b p : Nat) (rate dep date : Int)
    (hdep : 0 < dep)
    (hover : freeCount s b p < (Int.ediv dep rate).toNat) :
    (record s m b p rate dep 0 date).1.entries.length
        = s.entries.length + freeCount s b p ∧
    (record s m b p rate dep 0 date).2 = RecordResult.recorded (freeCount s b p) := by
  obtain ⟨h1, h2⟩ := record_deposit_count s m b p rate dep date hdep
  have hmin : min ((Int.ediv dep rate).toNat) (freeCount s b p) = freeCount s b p :=
    Nat.min_eq_right (le_of_lt hover)
  have hif : (if 0 < Int.emod dep rate ∧ (Int.ediv dep rate).toNat < freeCount s b p
      then 1 else 0) = 0 := by
    rw [if_neg]
    rintro ⟨_, hlt⟩
    omega
  rw [h1, h2, hmin, hif]
  exact ⟨by omega, by rw [Nat.add_zero]⟩

/-- Witness for C6 at a concrete input: 30 of 31 rows occupied, deposit 30.00
at rate 10.00 (3 rows needed, 1 free). -/
theorem c6_witness :
    (record c6State 0 1 1 1000 3000 0 0).1.entries.length
        = c6State.entries.length + freeCount c6State 1 1 ∧
    (record c6State 0 1 1 1000 3000 0 0).2 = RecordResult.recorded (freeCount c6State 1 1) :=
  c6_theorem c6State 0 1 1 1000 3000 0 (by decide) (by decide)

/-- C6 counterexample: page 1 has rows 1..30 occupied; a deposit of 30.00 at
rate 10.00 requires 3 rows but exactly 1 entry is persisted — a partial set
(1 of 3 rows) is visible after the call, refuting atomicity. -/
theorem c6_counterexample :
    (record c6State 0 1 1 1000 3000 0 0).1.entries.length = 31 ∧
    (record c6State 0 1 1 1000 3000 0 0).2 = RecordResult.recorded 1 := by
  decide

/-- C7: after any sequence of record operations starting from the empty store,
no two entries share a (page, row_number) slot — page identity being the
(book, page_number) pair — and every entry's row_number lies in 1..31. -/
theorem c7_theorem (reqs : List Request) :
    Inv (applyRequests emptyState reqs).entries :=
  applyRequests_inv reqs emptyState
    ⟨fun e he => absurd he (List.not_mem_nil e), List.Pairwise.nil⟩

/-- Witness for C10 at a concrete input: deposit 5.00 on an empty page. -/
theorem c10_witness :
    (groupsSave [] c10Dep).current_balance =
      ((prevOnPage [] c10Dep.member c10Dep.book c10Dep.page_number).map
        Entry.current_balance).getD 0 + c10Dep.deposit_amount :=
  (c10_theorem [] c10Dep).2.1 (by decide)

end SusuLedger
